import Mathlib

/-!
# Fractional loan-ownership ledger: model and verification

The repository's on-chain ledger is a NEAR smart contract. The full Rust
implementation is not checked in; the repository carries its README
(`blockchain/near/README.md`), the state and function declarations quoted in
`PITCH-DECK.md` and `DEVPOST.md`, and a natural-language specification of the
ledger core. The ledger operations below are therefore modelled from the
specification (each such definition says so in its doc comment), while the
`Snippet` namespace at the end embeds, verbatim in structure, the `LoanToken`
state type and `register_loan_token` body that do appear in the repository's
markdown files.

All maps are association lists (the contract uses NEAR `UnorderedMap`s), all
amounts are natural numbers (basis points live in 1..10000), and every
operation is a pure function from a `Store` to a result paired with the
post-call `Store`, returning the unchanged input store on every error path.
-/

set_option autoImplicit false

namespace LoanLedger

abbrev AccountId := String

/-- Lifecycle status of a tokenized loan: `Active`, `Settled`, `Defaulted`,
`Restructured` (spec §3). -/
inductive LoanStatus where
  | Active
  | Settled
  | Defaulted
  | Restructured
  deriving DecidableEq, Repr

/-- Error taxonomy of the ledger core (spec §7), plus the distinct fatal
class for a post-transfer conservation violation. -/
inductive LedgerError where
  | Unauthorized
  | DuplicateAsset
  | InvalidAmount
  | AssetNotFound
  | AssetNotTradeable
  | InvalidFraction
  | InsufficientOwnership
  | InvalidTransfer
  | InvalidTransition
  | InternalInconsistency
  deriving DecidableEq, Repr

/-- One record per tokenized loan (spec §3): identity fields plus the
ownership table mapping holder to share in basis points. -/
structure AssetRecord where
  asset_id : String
  external_reference : String
  originator : AccountId
  total_value : Nat
  ownership_table : List (AccountId × Nat)
  status : LoanStatus
  created_at : Nat
  deriving DecidableEq, Repr

/-- Append-only transfer event (spec §3), one per executed transfer. -/
structure TransferEvent where
  asset_id : String
  from_acct : AccountId
  to_acct : AccountId
  basis_points : Nat
  price : Nat
  executed_at : Nat
  sequence_number : Nat
  deriving DecidableEq, Repr

/-- First-match lookup in an association list keyed by strings. -/
def lookupA {α : Type} : List (String × α) → String → Option α
  | [], _ => none
  | (k, v) :: rest, a => if k = a then some v else lookupA rest a

/-- Replace the first binding of a key, or append one if the key is absent
(the upsert of NEAR `UnorderedMap.insert`). -/
def setA {α : Type} : List (String × α) → String → α → List (String × α)
  | [], k, v => [(k, v)]
  | (k0, v0) :: rest, k, v =>
    if k0 = k then (k, v) :: rest else (k0, v0) :: setA rest k v

/-- Boolean membership in a list of account ids. -/
def memS : List AccountId → AccountId → Bool
  | [], _ => false
  | x :: rest, a => if x = a then true else memS rest a

/-- Share held by `a` in an ownership table, zero when absent. -/
def shareOf (table : List (AccountId × Nat)) (a : AccountId) : Nat :=
  (lookupA table a).getD 0

/-- Sum of all shares in an ownership table. -/
def sumShares (table : List (AccountId × Nat)) : Nat :=
  (table.map Prod.snd).sum

/-- Modelled from the spec: the transfer effect on the paying side — decrement
the first binding of `a` by `bp`, removing the entry when it reaches 0
(spec §4.2 "Decrement caller's share by basis_points; if it reaches 0, remove
the entry"). -/
def debit : List (AccountId × Nat) → AccountId → Nat → List (AccountId × Nat)
  | [], _, _ => []
  | (k, v) :: rest, a, bp =>
    if k = a then
      if v - bp = 0 then rest else (k, v - bp) :: rest
    else (k, v) :: debit rest a bp

/-- Modelled from the spec: the transfer effect on the receiving side —
increment `a`'s share by `bp`, creating the entry if absent (spec §4.2
"Increment to's share by basis_points (create entry if absent)"). -/
def credit : List (AccountId × Nat) → AccountId → Nat → List (AccountId × Nat)
  | [], a, bp => [(a, bp)]
  | (k, v) :: rest, a, bp =>
    if k = a then (k, v + bp) :: rest else (k, v) :: credit rest a bp

/-- One replay step: apply a recorded `TransferEvent` to an ownership table,
exactly as the transfer engine applies the live transfer. -/
def stepTable (table : List (AccountId × Nat)) (ev : TransferEvent) :
    List (AccountId × Nat) :=
  credit (debit table ev.from_acct ev.basis_points) ev.to_acct ev.basis_points

/-- Replay a sequence of transfer events from the initial
100%-to-originator table (spec §3, audit-trail invariant). -/
def replayTable (originator : AccountId) (evs : List TransferEvent) :
    List (AccountId × Nat) :=
  evs.foldl stepTable [(originator, 10000)]

/-- The persistent ledger store (spec §3, §5): asset records and transfer
history keyed by asset id, the authorization set, the administrator identity,
and the logical clock. -/
structure Store where
  assets : List (String × AssetRecord)
  history : List (String × List TransferEvent)
  authorized : List AccountId
  admin : AccountId
  clock : Nat
  deriving DecidableEq, Repr

/-- Transfer history of an asset, empty when no transfer has been recorded. -/
def historyOf (s : Store) (asset_id : String) : List TransferEvent :=
  (lookupA s.history asset_id).getD []

/-- Modelled from the spec: `register(caller, asset_id, external_reference,
total_value)` (spec §4.1). Preconditions in listed order: caller authorized
(`Unauthorized`), asset id fresh (`DuplicateAsset`), positive value
(`InvalidAmount`); on success the record is created with
`ownership_table = [(caller, 10000)]` and `status = Active`. The Rust body in
the repository is not checked in; only its declaration appears in
`DEVPOST.md`. -/
def register (s : Store) (caller : AccountId) (asset_id external_reference : String)
    (total_value : Nat) : Except LedgerError AssetRecord × Store :=
  if memS s.authorized caller then
    if (lookupA s.assets asset_id).isSome then (.error .DuplicateAsset, s)
    else if total_value = 0 then (.error .InvalidAmount, s)
    else
      let r : AssetRecord :=
        { asset_id := asset_id
          external_reference := external_reference
          originator := caller
          total_value := total_value
          ownership_table := [(caller, 10000)]
          status := .Active
          created_at := s.clock }
      (.ok r, { s with assets := s.assets ++ [(asset_id, r)], clock := s.clock + 1 })
  else (.error .Unauthorized, s)

/-- Modelled from the spec: `transfer(caller, asset_id, to, basis_points,
price)` (spec §4.2). Preconditions checked in order: asset exists, status is
Active, `1 ≤ basis_points ≤ 10000`, caller's share covers the amount, no
self-transfer; then the table is debited/credited, the conservation
post-condition is re-verified, and the event is appended with the next
per-asset sequence number. -/
def transfer (s : Store) (caller : AccountId) (asset_id : String) (to_acct : AccountId)
    (basis_points price : Nat) : Except LedgerError TransferEvent × Store :=
  match lookupA s.assets asset_id with
  | none => (.error .AssetNotFound, s)
  | some r =>
    if r.status = .Active then
      if basis_points = 0 ∨ 10000 < basis_points then (.error .InvalidFraction, s)
      else if shareOf r.ownership_table caller < basis_points then
        (.error .InsufficientOwnership, s)
      else if to_acct = caller then (.error .InvalidTransfer, s)
      else
        let table2 := credit (debit r.ownership_table caller basis_points) to_acct basis_points
        if sumShares table2 = 10000 then
          let prev := historyOf s asset_id
          let ev : TransferEvent :=
            { asset_id := asset_id
              from_acct := caller
              to_acct := to_acct
              basis_points := basis_points
              price := price
              executed_at := s.clock
              sequence_number := prev.length + 1 }
          (.ok ev,
            { s with
              assets := setA s.assets asset_id { r with ownership_table := table2 }
              history := setA s.history asset_id (prev ++ [ev])
              clock := s.clock + 1 })
        else (.error .InternalInconsistency, s)
    else (.error .AssetNotTradeable, s)

/-- The lifecycle state machine (spec §4.3): `Active` may move to `Settled`,
`Defaulted` or `Restructured`; `Restructured` may return to `Active`;
`Settled` and `Defaulted` are terminal. -/
def allowedTransition : LoanStatus → LoanStatus → Bool
  | .Active, .Settled => true
  | .Active, .Defaulted => true
  | .Active, .Restructured => true
  | .Restructured, .Active => true
  | _, _ => false

/-- Modelled from the spec: `update_status(caller, asset_id, new_status)`
(spec §4.3). Asset must exist, the caller must be the originator, and the
transition must be permitted by the lifecycle state machine. -/
def update_status (s : Store) (caller : AccountId) (asset_id : String)
    (new_status : LoanStatus) : Except LedgerError Unit × Store :=
  match lookupA s.assets asset_id with
  | none => (.error .AssetNotFound, s)
  | some r =>
    if caller = r.originator then
      if allowedTransition r.status new_status then
        (.ok (),
          { s with
            assets := setA s.assets asset_id { r with status := new_status }
            clock := s.clock + 1 })
      else (.error .InvalidTransition, s)
    else (.error .Unauthorized, s)

/-- Modelled from the spec: `authorize(admin, identity)` (spec §4.1) — only
the administrator may grow the authorization set. -/
def authorize (s : Store) (admin_caller identity : AccountId) :
    Except LedgerError Unit × Store :=
  if admin_caller = s.admin then
    (.ok (),
      { s with
        authorized :=
          if memS s.authorized identity then s.authorized
          else s.authorized ++ [identity]
        clock := s.clock + 1 })
  else (.error .Unauthorized, s)

/-- Modelled from the spec: `revoke(admin, identity)` (spec §4.1) — only the
administrator may shrink the authorization set. -/
def revoke (s : Store) (admin_caller identity : AccountId) :
    Except LedgerError Unit × Store :=
  if admin_caller = s.admin then
    (.ok (),
      { s with
        authorized := s.authorized.filter (fun a => a ≠ identity)
        clock := s.clock + 1 })
  else (.error .Unauthorized, s)

/-- Modelled from the spec: read query `get_asset(asset_id)` (spec §4.4). -/
def get_asset (s : Store) (asset_id : String) : Except LedgerError AssetRecord :=
  match lookupA s.assets asset_id with
  | none => .error .AssetNotFound
  | some r => .ok r

/-- Modelled from the spec: read query `get_ownership(asset_id)` (spec §4.4). -/
def get_ownership (s : Store) (asset_id : String) :
    Except LedgerError (List (AccountId × Nat)) :=
  match lookupA s.assets asset_id with
  | none => .error .AssetNotFound
  | some r => .ok r.ownership_table

/-- Modelled from the spec: read query `get_history(asset_id)` (spec §4.4),
events ordered by ascending sequence number. -/
def get_history (s : Store) (asset_id : String) :
    Except LedgerError (List TransferEvent) :=
  match lookupA s.assets asset_id with
  | none => .error .AssetNotFound
  | some _ => .ok (historyOf s asset_id)

/-- A mutating ledger call (spec §6): one of the five state-changing
operations with its arguments. -/
inductive Op where
  | register (caller asset_id external_reference : String) (total_value : Nat)
  | transfer (caller asset_id to_acct : String) (basis_points price : Nat)
  | update_status (caller asset_id : String) (new_status : LoanStatus)
  | authorize (admin_caller identity : AccountId)
  | revoke (admin_caller identity : AccountId)
  deriving DecidableEq, Repr

/-- The store produced by one mutating call (the input store when the call
fails — every operation is transactional over the whole store, spec §5). -/
def applyOp (s : Store) : Op → Store
  | .register c a e t => (register s c a e t).2
  | .transfer c a t0 bp p => (transfer s c a t0 bp p).2
  | .update_status c a st => (update_status s c a st).2
  | .authorize c i => (authorize s c i).2
  | .revoke c i => (revoke s c i).2

/-- The error produced by one mutating call, `none` on success. -/
def opError (s : Store) : Op → Option LedgerError
  | .register c a e t =>
    match (register s c a e t).1 with
    | .error e0 => some e0
    | .ok _ => none
  | .transfer c a t0 bp p =>
    match (transfer s c a t0 bp p).1 with
    | .error e0 => some e0
    | .ok _ => none
  | .update_status c a st =>
    match (update_status s c a st).1 with
    | .error e0 => some e0
    | .ok _ => none
  | .authorize c i =>
    match (authorize s c i).1 with
    | .error e0 => some e0
    | .ok _ => none
  | .revoke c i =>
    match (revoke s c i).1 with
    | .error e0 => some e0
    | .ok _ => none

/-- The deployment store: no assets, no history, the deploying administrator
alone in the authorization set (spec §3). -/
def initStore (admin : AccountId) : Store :=
  { assets := [], history := [], authorized := [admin], admin := admin, clock := 0 }

/-- Stores reachable from deployment through any sequence of mutating calls
(failed calls leave the store unchanged, so closure under `applyOp` covers
exactly the states after any sequence of successful operations). -/
inductive Reachable (admin : AccountId) : Store → Prop where
  | init : Reachable admin (initStore admin)
  | step (s : Store) (op : Op) : Reachable admin s → Reachable admin (applyOp s op)


/-! ## Association-list and ownership-table lemmas -/

theorem lookupA_setA_self {α : Type} (l : List (String × α)) (k : String) (v : α) :
    lookupA (setA l k v) k = some v := by
  induction l with
  | nil => simp [setA, lookupA]
  | cons p rest ih =>
    obtain ⟨k0, v0⟩ := p
    by_cases h : k0 = k
    · simp [setA, if_pos h, lookupA]
    · simp only [setA, if_neg h, lookupA, if_neg h]
      exact ih

theorem lookupA_setA_ne {α : Type} (l : List (String × α)) (k k' : String) (v : α)
    (h : k' ≠ k) : lookupA (setA l k v) k' = lookupA l k' := by
  have h' : ¬ k = k' := fun e => h e.symm
  induction l with
  | nil => simp only [setA, lookupA, if_neg h']
  | cons p rest ih =>
    obtain ⟨k0, v0⟩ := p
    by_cases h0 : k0 = k
    · subst h0
      simp only [setA, if_pos rfl, lookupA, if_neg h']
    · simp only [setA, if_neg h0, lookupA]
      by_cases h1 : k0 = k'
      · rw [if_pos h1, if_pos h1]
      · rw [if_neg h1, if_neg h1]
        exact ih

theorem lookupA_append_of_none {α : Type} (l : List (String × α)) (k a : String) (v : α)
    (h : lookupA l a = none) :
    lookupA (l ++ [(k, v)]) a = if k = a then some v else none := by
  induction l with
  | nil => simp [lookupA]
  | cons p rest ih =>
    obtain ⟨k0, v0⟩ := p
    by_cases h0 : k0 = a
    · simp [lookupA, h0] at h
    · simp only [lookupA, h0, if_false] at h
      simp only [List.cons_append, lookupA, h0, if_false]
      exact ih h

theorem lookupA_append_of_some {α : Type} (l : List (String × α)) (k a : String) (v r : α)
    (h : lookupA l a = some r) : lookupA (l ++ [(k, v)]) a = some r := by
  induction l with
  | nil => simp [lookupA] at h
  | cons p rest ih =>
    obtain ⟨k0, v0⟩ := p
    by_cases h0 : k0 = a
    · simp only [lookupA, h0, if_true] at h
      simp only [List.cons_append, lookupA, h0, if_true]
      exact h
    · simp only [lookupA, h0, if_false] at h
      simp only [List.cons_append, lookupA, h0, if_false]
      exact ih h

theorem lookupA_eq_none_iff {α : Type} (l : List (String × α)) (a : String) :
    lookupA l a = none ↔ a ∉ l.map Prod.fst := by
  induction l with
  | nil => simp [lookupA]
  | cons p rest ih =>
    obtain ⟨k0, v0⟩ := p
    by_cases h0 : k0 = a
    · subst h0
      simp [lookupA]
    · simp only [lookupA, h0, if_false, List.map_cons, List.mem_cons, ih]
      constructor
      · intro hn hc
        rcases hc with hc | hc
        · exact h0 hc.symm
        · exact hn hc
      · intro hn hc
        exact hn (.inr hc)

theorem shareOf_nil (a : AccountId) : shareOf [] a = 0 := rfl

theorem shareOf_cons (k : AccountId) (v : Nat) (rest : List (AccountId × Nat))
    (a : AccountId) : shareOf ((k, v) :: rest) a = if k = a then v else shareOf rest a := by
  by_cases h : k = a <;> simp [shareOf, lookupA, h]

theorem sumShares_nil : sumShares [] = 0 := rfl

theorem sumShares_cons (k : AccountId) (v : Nat) (rest : List (AccountId × Nat)) :
    sumShares ((k, v) :: rest) = v + sumShares rest := by
  simp [sumShares]

theorem sumShares_credit (t : List (AccountId × Nat)) (a : AccountId) (bp : Nat) :
    sumShares (credit t a bp) = sumShares t + bp := by
  induction t with
  | nil => simp [credit, sumShares]
  | cons p rest ih =>
    obtain ⟨k, v⟩ := p
    by_cases h : k = a
    · simp only [credit, if_pos h, sumShares_cons]
      omega
    · simp only [credit, if_neg h, sumShares_cons, ih]
      omega

theorem sumShares_debit (t : List (AccountId × Nat)) (a : AccountId) (bp : Nat)
    (h : bp ≤ shareOf t a) : sumShares (debit t a bp) + bp = sumShares t := by
  induction t with
  | nil =>
    rw [shareOf_nil] at h
    simp only [debit, sumShares_nil]
    omega
  | cons p rest ih =>
    obtain ⟨k, v⟩ := p
    by_cases h0 : k = a
    · rw [shareOf_cons, if_pos h0] at h
      by_cases h1 : v - bp = 0
      · simp only [debit, if_pos h0, h1, if_true, sumShares_cons]
        omega
      · simp only [debit, if_pos h0, h1, if_false, sumShares_cons]
        omega
    · rw [shareOf_cons, if_neg h0] at h
      simp only [debit, if_neg h0, sumShares_cons]
      have := ih h
      omega

theorem pos_debit (t : List (AccountId × Nat)) (a : AccountId) (bp : Nat)
    (h : ∀ p ∈ t, 0 < p.2) : ∀ p ∈ debit t a bp, 0 < p.2 := by
  induction t with
  | nil => simp [debit]
  | cons q rest ih =>
    obtain ⟨k, v⟩ := q
    intro p hp
    by_cases h0 : k = a
    · by_cases h1 : v - bp = 0
      · simp only [debit, if_pos h0, h1, if_true] at hp
        exact h p (List.mem_cons_of_mem _ hp)
      · simp only [debit, if_pos h0, h1, if_false, List.mem_cons] at hp
        rcases hp with hp | hp
        · subst hp
          exact Nat.pos_of_ne_zero h1
        · exact h p (List.mem_cons_of_mem _ hp)
    · simp only [debit, if_neg h0, List.mem_cons] at hp
      rcases hp with hp | hp
      · subst hp
        exact h _ (List.mem_cons_self _ _)
      · exact ih (fun q hq => h q (List.mem_cons_of_mem _ hq)) p hp

theorem pos_credit (t : List (AccountId × Nat)) (a : AccountId) (bp : Nat)
    (h : ∀ p ∈ t, 0 < p.2) (hbp : 0 < bp) : ∀ p ∈ credit t a bp, 0 < p.2 := by
  induction t with
  | nil =>
    intro p hp
    simp only [credit, List.mem_singleton] at hp
    subst hp
    exact hbp
  | cons q rest ih =>
    obtain ⟨k, v⟩ := q
    intro p hp
    by_cases h0 : k = a
    · simp only [credit, if_pos h0, List.mem_cons] at hp
      rcases hp with hp | hp
      · subst hp
        have hv := h _ (List.mem_cons_self (k, v) rest)
        simp only at hv ⊢
        omega
      · exact h p (List.mem_cons_of_mem _ hp)
    · simp only [credit, if_neg h0, List.mem_cons] at hp
      rcases hp with hp | hp
      · subst hp
        exact h _ (List.mem_cons_self _ _)
      · exact ih (fun q hq => h q (List.mem_cons_of_mem _ hq)) p hp

theorem keys_debit_sublist (t : List (AccountId × Nat)) (a : AccountId) (bp : Nat) :
    ((debit t a bp).map Prod.fst).Sublist (t.map Prod.fst) := by
  induction t with
  | nil => simp [debit]
  | cons q rest ih =>
    obtain ⟨k, v⟩ := q
    by_cases h0 : k = a
    · by_cases h1 : v - bp = 0
      · simp only [debit, if_pos h0, h1, if_true, List.map_cons]
        exact (List.Sublist.refl _).cons _
      · simp only [debit, if_pos h0, h1, if_false, List.map_cons]
        exact (List.Sublist.refl _).cons₂ _
    · simp only [debit, if_neg h0, List.map_cons]
      exact ih.cons₂ _

theorem nodup_debit (t : List (AccountId × Nat)) (a : AccountId) (bp : Nat)
    (h : (t.map Prod.fst).Nodup) : ((debit t a bp).map Prod.fst).Nodup :=
  h.sublist (keys_debit_sublist t a bp)

theorem keys_credit (t : List (AccountId × Nat)) (a : AccountId) (bp : Nat) :
    (credit t a bp).map Prod.fst = t.map Prod.fst ∨
      (lookupA t a = none ∧ (credit t a bp).map Prod.fst = t.map Prod.fst ++ [a]) := by
  induction t with
  | nil => exact .inr ⟨rfl, by simp [credit]⟩
  | cons q rest ih =>
    obtain ⟨k, v⟩ := q
    by_cases h0 : k = a
    · left
      simp [credit, h0]
    · rcases ih with ih | ⟨ih1, ih2⟩
      · left
        simp only [credit, if_neg h0, List.map_cons, ih]
      · right
        refine ⟨by simp [lookupA, h0, ih1], ?_⟩
        simp only [credit, if_neg h0, List.map_cons, ih2, List.cons_append]

theorem nodup_credit (t : List (AccountId × Nat)) (a : AccountId) (bp : Nat)
    (h : (t.map Prod.fst).Nodup) : ((credit t a bp).map Prod.fst).Nodup := by
  rcases keys_credit t a bp with hk | ⟨hn, hk⟩
  · rw [hk]
    exact h
  · rw [hk]
    rw [lookupA_eq_none_iff] at hn
    simp only [List.nodup_append, List.nodup_singleton, List.disjoint_singleton]
    exact ⟨h, trivial, hn⟩

theorem shareOf_credit_self (t : List (AccountId × Nat)) (a : AccountId) (bp : Nat) :
    shareOf (credit t a bp) a = shareOf t a + bp := by
  induction t with
  | nil => simp [credit, shareOf_cons, shareOf_nil]
  | cons q rest ih =>
    obtain ⟨k, v⟩ := q
    by_cases h0 : k = a
    · simp only [credit, if_pos h0, shareOf_cons, if_pos h0]
    · simp only [credit, if_neg h0, shareOf_cons, if_neg h0, ih]

theorem shareOf_credit_ne (t : List (AccountId × Nat)) (a b : AccountId) (bp : Nat)
    (h : b ≠ a) : shareOf (credit t a bp) b = shareOf t b := by
  have h' : ¬ a = b := fun e => h e.symm
  induction t with
  | nil => simp only [credit, shareOf_cons, if_neg h', shareOf_nil]
  | cons q rest ih =>
    obtain ⟨k, v⟩ := q
    by_cases h0 : k = a
    · subst h0
      simp [credit, shareOf_cons, h']
    · simp only [credit, if_neg h0, shareOf_cons, ih]

theorem shareOf_debit_ne (t : List (AccountId × Nat)) (a b : AccountId) (bp : Nat)
    (h : b ≠ a) : shareOf (debit t a bp) b = shareOf t b := by
  have h' : ¬ a = b := fun e => h e.symm
  induction t with
  | nil => simp [debit]
  | cons q rest ih =>
    obtain ⟨k, v⟩ := q
    by_cases h0 : k = a
    · subst h0
      by_cases h1 : v - bp = 0
      · simp [debit, h1, shareOf_cons, h']
      · simp [debit, h1, shareOf_cons, h']
    · simp only [debit, if_neg h0, shareOf_cons, ih]

theorem shareOf_debit_self (t : List (AccountId × Nat)) (a : AccountId) (bp : Nat)
    (hnd : (t.map Prod.fst).Nodup) : shareOf (debit t a bp) a = shareOf t a - bp := by
  induction t with
  | nil => simp [debit, shareOf_nil]
  | cons q rest ih =>
    obtain ⟨k, v⟩ := q
    simp only [List.map_cons, List.nodup_cons] at hnd
    by_cases h0 : k = a
    · subst h0
      by_cases h1 : v - bp = 0
      · simp only [debit, if_pos rfl, h1, if_true, shareOf_cons, if_pos rfl]
        have hn : lookupA rest k = none := (lookupA_eq_none_iff rest k).mpr hnd.1
        rw [shareOf, hn]
        simp [h1]
      · simp [debit, h1, shareOf_cons]
    · simp only [debit, if_neg h0, shareOf_cons, if_neg h0, ih hnd.2]

theorem lookupA_debit_self_none (t : List (AccountId × Nat)) (a : AccountId) (bp : Nat)
    (hnd : (t.map Prod.fst).Nodup) (h : shareOf t a ≤ bp) :
    lookupA (debit t a bp) a = none := by
  induction t with
  | nil => simp [debit, lookupA]
  | cons q rest ih =>
    obtain ⟨k, v⟩ := q
    simp only [List.map_cons, List.nodup_cons] at hnd
    by_cases h0 : k = a
    · subst h0
      rw [shareOf_cons, if_pos rfl] at h
      have h1 : v - bp = 0 := by omega
      simp only [debit, if_pos rfl, h1, if_true]
      exact (lookupA_eq_none_iff rest k).mpr hnd.1
    · rw [shareOf_cons, if_neg h0] at h
      simp only [debit, if_neg h0, lookupA, if_neg h0]
      exact ih hnd.2 h

theorem lookupA_credit_ne (t : List (AccountId × Nat)) (a b : AccountId) (bp : Nat)
    (h : b ≠ a) : lookupA (credit t a bp) b = lookupA t b := by
  have h' : ¬ a = b := fun e => h e.symm
  induction t with
  | nil => simp only [credit, lookupA, if_neg h']
  | cons q rest ih =>
    obtain ⟨k, v⟩ := q
    by_cases h0 : k = a
    · subst h0
      simp only [credit, if_pos rfl, lookupA, if_neg h']
    · simp only [credit, if_neg h0, lookupA, ih]

/-! ## Operation shape lemmas: every call either fails leaving the store
unchanged, or succeeds with the fully described effect. -/

/-- The record created by a successful registration. -/
def freshRecord (s : Store) (caller : AccountId) (asset_id external_reference : String)
    (total_value : Nat) : AssetRecord :=
  { asset_id := asset_id
    external_reference := external_reference
    originator := caller
    total_value := total_value
    ownership_table := [(caller, 10000)]
    status := .Active
    created_at := s.clock }

theorem register_shape (s : Store) (caller : AccountId) (aid ext : String) (tv : Nat) :
    (∃ e, register s caller aid ext tv = (.error e, s)) ∨
    (memS s.authorized caller = true ∧ lookupA s.assets aid = none ∧ 0 < tv ∧
      register s caller aid ext tv =
        (.ok (freshRecord s caller aid ext tv),
          { s with assets := s.assets ++ [(aid, freshRecord s caller aid ext tv)],
                   clock := s.clock + 1 })) := by
  by_cases h1 : memS s.authorized caller
  · by_cases h2 : (lookupA s.assets aid).isSome
    · left
      exact ⟨.DuplicateAsset, by simp [register, h1, h2]⟩
    · by_cases h3 : tv = 0
      · left
        exact ⟨.InvalidAmount, by simp [register, h1, h2, h3]⟩
      · right
        refine ⟨h1, Option.not_isSome_iff_eq_none.mp h2, Nat.pos_of_ne_zero h3, ?_⟩
        simp [register, h1, h2, h3, freshRecord]
  · left
    exact ⟨.Unauthorized, by simp [register, h1]⟩

/-- The event appended by a successful transfer. -/
def freshEvent (s : Store) (caller : AccountId) (aid : String) (t0 : AccountId)
    (bp price : Nat) : TransferEvent :=
  { asset_id := aid
    from_acct := caller
    to_acct := t0
    basis_points := bp
    price := price
    executed_at := s.clock
    sequence_number := (historyOf s aid).length + 1 }

theorem transfer_shape (s : Store) (caller : AccountId) (aid : String) (t0 : AccountId)
    (bp price : Nat) :
    (∃ e, transfer s caller aid t0 bp price = (.error e, s)) ∨
    (∃ r, lookupA s.assets aid = some r ∧ r.status = .Active ∧ 0 < bp ∧ bp ≤ 10000 ∧
      bp ≤ shareOf r.ownership_table caller ∧ t0 ≠ caller ∧
      sumShares (credit (debit r.ownership_table caller bp) t0 bp) = 10000 ∧
      transfer s caller aid t0 bp price =
        (.ok (freshEvent s caller aid t0 bp price),
          { s with
            assets := setA s.assets aid
              { r with ownership_table := credit (debit r.ownership_table caller bp) t0 bp }
            history := setA s.history aid
              (historyOf s aid ++ [freshEvent s caller aid t0 bp price])
            clock := s.clock + 1 })) := by
  cases hl : lookupA s.assets aid with
  | none =>
    left
    exact ⟨.AssetNotFound, by simp [transfer, hl]⟩
  | some r =>
    by_cases h1 : r.status = .Active
    · by_cases h2 : bp = 0 ∨ 10000 < bp
      · left
        exact ⟨.InvalidFraction, by simp [transfer, hl, h1, h2]⟩
      · by_cases h3 : shareOf r.ownership_table caller < bp
        · left
          refine ⟨.InsufficientOwnership, ?_⟩
          simp [transfer, hl, h1, h2, h3]
        · by_cases h4 : t0 = caller
          · left
            refine ⟨.InvalidTransfer, ?_⟩
            simp [transfer, hl, h1, h2, h3, h4]
          · by_cases h5 :
              sumShares (credit (debit r.ownership_table caller bp) t0 bp) = 10000
            · right
              push_neg at h2 h3
              have h2a : ¬ (bp = 0 ∨ 10000 < bp) := by omega
              have h3a : ¬ shareOf r.ownership_table caller < bp := by omega
              refine ⟨r, rfl, h1, Nat.pos_of_ne_zero h2.1, h2.2, h3, h4, h5, ?_⟩
              simp [transfer, hl, h1, h2a, h3a, h4, h5, freshEvent]
            · left
              refine ⟨.InternalInconsistency, ?_⟩
              simp [transfer, hl, h1, h2, h3, h4, h5]
    · left
      exact ⟨.AssetNotTradeable, by simp [transfer, hl, h1]⟩

theorem update_status_shape (s : Store) (caller : AccountId) (aid : String)
    (st : LoanStatus) :
    (∃ e, update_status s caller aid st = (.error e, s)) ∨
    (∃ r, lookupA s.assets aid = some r ∧ caller = r.originator ∧
      allowedTransition r.status st = true ∧
      update_status s caller aid st =
        (.ok (), { s with assets := setA s.assets aid { r with status := st },
                          clock := s.clock + 1 })) := by
  cases hl : lookupA s.assets aid with
  | none =>
    left
    exact ⟨.AssetNotFound, by simp [update_status, hl]⟩
  | some r =>
    by_cases h1 : caller = r.originator
    · by_cases h2 : allowedTransition r.status st
      · right
        exact ⟨r, rfl, h1, h2, by simp [update_status, hl, h1, h2]⟩
      · left
        refine ⟨.InvalidTransition, ?_⟩
        simp [update_status, hl, h1, h2]
    · left
      exact ⟨.Unauthorized, by simp [update_status, hl, h1]⟩

theorem authorize_shape (s : Store) (c i : AccountId) :
    (c ≠ s.admin ∧ authorize s c i = (.error .Unauthorized, s)) ∨
    (c = s.admin ∧ authorize s c i =
      (.ok (), { s with authorized := if memS s.authorized i then s.authorized
                          else s.authorized ++ [i],
                        clock := s.clock + 1 })) := by
  by_cases h : c = s.admin
  · right
    exact ⟨h, by simp [authorize, h]⟩
  · left
    exact ⟨h, by simp [authorize, h]⟩

theorem revoke_shape (s : Store) (c i : AccountId) :
    (c ≠ s.admin ∧ revoke s c i = (.error .Unauthorized, s)) ∨
    (c = s.admin ∧ revoke s c i =
      (.ok (), { s with authorized := s.authorized.filter (fun a => a ≠ i),
                        clock := s.clock + 1 })) := by
  by_cases h : c = s.admin
  · right
    exact ⟨h, by simp [revoke, h]⟩
  · left
    exact ⟨h, by simp [revoke, h]⟩

/-! ## The ledger invariant and its preservation -/

/-- A well-formed ownership table: shares sum to exactly 10000 basis points,
every entry is strictly positive, and holders are not duplicated. -/
def tableWF (t : List (AccountId × Nat)) : Prop :=
  sumShares t = 10000 ∧ (∀ p ∈ t, 0 < p.2) ∧ (t.map Prod.fst).Nodup

/-- Per-asset invariant: the stored id matches the key, the ownership table
is well formed, and replaying the asset's transfer history from the initial
100%-to-originator table reproduces the current table exactly. -/
def assetWF (s : Store) (aid : String) (r : AssetRecord) : Prop :=
  r.asset_id = aid ∧ tableWF r.ownership_table ∧
    replayTable r.originator (historyOf s aid) = r.ownership_table

/-- The whole-store invariant: every stored asset satisfies `assetWF`,
history exists only for stored assets, and every history carries sequence
numbers `1..n` in ascending order. -/
def StoreInv (s : Store) : Prop :=
  (∀ aid r, lookupA s.assets aid = some r → assetWF s aid r) ∧
  (∀ aid, lookupA s.assets aid = none → lookupA s.history aid = none) ∧
  (∀ aid, (historyOf s aid).map TransferEvent.sequence_number =
    List.range' 1 (historyOf s aid).length)

theorem storeInv_init (admin : AccountId) : StoreInv (initStore admin) := by
  refine ⟨?_, ?_, ?_⟩
  · intro aid r h
    simp [initStore, lookupA] at h
  · intro aid _
    rfl
  · intro aid
    rfl

theorem storeInv_register (s : Store) (c : AccountId) (aid ext : String) (tv : Nat)
    (hs : StoreInv s) : StoreInv (register s c aid ext tv).2 := by
  rcases register_shape s c aid ext tv with ⟨e, heq⟩ | ⟨h1, h2, h3, heq⟩
  · rw [heq]
    exact hs
  · rw [heq]
    obtain ⟨inv1, inv2, inv3⟩ := hs
    refine ⟨?_, ?_, ?_⟩
    · intro aid' r' h
      dsimp only at h
      cases hl : lookupA s.assets aid' with
      | some r0 =>
        rw [lookupA_append_of_some _ _ _ _ _ hl] at h
        injection h with h2
        subst h2
        have hwf := inv1 aid' r0 hl
        unfold assetWF at hwf ⊢
        simpa [historyOf] using hwf
      | none =>
        rw [lookupA_append_of_none _ _ _ _ hl] at h
        by_cases he : aid = aid'
        · subst he
          rw [if_pos rfl] at h
          cases h
          refine ⟨rfl, ⟨by simp [sumShares, freshRecord], ?_, by simp [freshRecord]⟩, ?_⟩
          · intro p hp
            simp only [freshRecord, List.mem_singleton] at hp
            subst hp
            simp
          · have hh : lookupA s.history aid = none := inv2 aid hl
            simp [replayTable, historyOf, hh, freshRecord]
        · rw [if_neg he] at h
          cases h
    · intro aid' h
      dsimp only at h
      cases hl : lookupA s.assets aid' with
      | some r0 =>
        rw [lookupA_append_of_some _ _ _ _ _ hl] at h
        cases h
      | none =>
        exact inv2 aid' hl
    · intro aid'
      have := inv3 aid'
      simpa [historyOf] using this

theorem storeInv_transfer (s : Store) (c : AccountId) (aid : String) (t0 : AccountId)
    (bp price : Nat) (hs : StoreInv s) : StoreInv (transfer s c aid t0 bp price).2 := by
  rcases transfer_shape s c aid t0 bp price with ⟨e, heq⟩ |
    ⟨r, hl, hst, hbp0, hbp1, hsh, ht0, hsum, heq⟩
  · rw [heq]
    exact hs
  · rw [heq]
    obtain ⟨inv1, inv2, inv3⟩ := hs
    obtain ⟨hid, ⟨hw1, hw2, hw3⟩, hrep⟩ := inv1 aid r hl
    refine ⟨?_, ?_, ?_⟩
    · intro aid' r' h
      dsimp only at h
      by_cases he : aid' = aid
      · subst he
        rw [lookupA_setA_self] at h
        cases h
        refine ⟨hid, ⟨hsum, pos_credit _ _ _ (pos_debit _ _ _ hw2) hbp0,
          nodup_credit _ _ _ (nodup_debit _ _ _ hw3)⟩, ?_⟩
        have hh : historyOf { s with
            assets := setA s.assets aid'
              { r with ownership_table := credit (debit r.ownership_table c bp) t0 bp }
            history := setA s.history aid'
              (historyOf s aid' ++ [freshEvent s c aid' t0 bp price])
            clock := s.clock + 1 } aid' =
            historyOf s aid' ++ [freshEvent s c aid' t0 bp price] := by
          simp [historyOf, lookupA_setA_self]
        rw [hh]
        simp only [replayTable, List.foldl_append, List.foldl_cons, List.foldl_nil]
        rw [show (historyOf s aid').foldl stepTable [(r.originator, 10000)] =
          r.ownership_table from hrep]
        simp [stepTable, freshEvent]
      · rw [lookupA_setA_ne _ _ _ _ he] at h
        obtain ⟨hid', hwf', hrep'⟩ := inv1 aid' r' h
        refine ⟨hid', hwf', ?_⟩
        have hh : historyOf { s with
            assets := setA s.assets aid
              { r with ownership_table := credit (debit r.ownership_table c bp) t0 bp }
            history := setA s.history aid
              (historyOf s aid ++ [freshEvent s c aid t0 bp price])
            clock := s.clock + 1 } aid' = historyOf s aid' := by
          simp [historyOf, lookupA_setA_ne _ _ _ _ he]
        rw [hh]
        exact hrep'
    · intro aid' h
      dsimp only at h
      by_cases he : aid' = aid
      · subst he
        rw [lookupA_setA_self] at h
        cases h
      · rw [lookupA_setA_ne _ _ _ _ he] at h
        rw [lookupA_setA_ne _ _ _ _ he]
        exact inv2 aid' h
    · intro aid'
      dsimp only [historyOf]
      by_cases he : aid' = aid
      · subst he
        rw [lookupA_setA_self]
        have hseq := inv3 aid'
        simp only [historyOf] at hseq
        simp only [Option.getD_some, List.map_append, List.length_append]
        rw [hseq]
        simp [freshEvent, historyOf, List.range'_concat]
        omega
      · rw [lookupA_setA_ne _ _ _ _ he]
        exact inv3 aid'

theorem storeInv_update_status (s : Store) (c : AccountId) (aid : String)
    (st : LoanStatus) (hs : StoreInv s) : StoreInv (update_status s c aid st).2 := by
  rcases update_status_shape s c aid st with ⟨e, heq⟩ | ⟨r, hl, hc, ht, heq⟩
  · rw [heq]
    exact hs
  · rw [heq]
    obtain ⟨inv1, inv2, inv3⟩ := hs
    refine ⟨?_, ?_, ?_⟩
    · intro aid' r' h
      dsimp only at h
      by_cases he : aid' = aid
      · subst he
        rw [lookupA_setA_self] at h
        cases h
        obtain ⟨hid, hwf, hrep⟩ := inv1 aid' r hl
        exact ⟨hid, hwf, by simpa [historyOf] using hrep⟩
      · rw [lookupA_setA_ne _ _ _ _ he] at h
        obtain ⟨hid', hwf', hrep'⟩ := inv1 aid' r' h
        exact ⟨hid', hwf', by simpa [historyOf] using hrep'⟩
    · intro aid' h
      dsimp only at h
      by_cases he : aid' = aid
      · subst he
        rw [lookupA_setA_self] at h
        cases h
      · rw [lookupA_setA_ne _ _ _ _ he] at h
        exact inv2 aid' h
    · intro aid'
      have := inv3 aid'
      simpa [historyOf] using this

theorem storeInv_authorize (s : Store) (c i : AccountId) (hs : StoreInv s) :
    StoreInv (authorize s c i).2 := by
  rcases authorize_shape s c i with ⟨_, heq⟩ | ⟨_, heq⟩ <;> rw [heq]
  · exact hs
  · obtain ⟨inv1, inv2, inv3⟩ := hs
    refine ⟨?_, ?_, ?_⟩
    · intro aid' r' h
      obtain ⟨hid, hwf, hrep⟩ := inv1 aid' r' h
      exact ⟨hid, hwf, by simpa [historyOf] using hrep⟩
    · intro aid' h
      exact inv2 aid' h
    · intro aid'
      have := inv3 aid'
      simpa [historyOf] using this

theorem storeInv_revoke (s : Store) (c i : AccountId) (hs : StoreInv s) :
    StoreInv (revoke s c i).2 := by
  rcases revoke_shape s c i with ⟨_, heq⟩ | ⟨_, heq⟩ <;> rw [heq]
  · exact hs
  · obtain ⟨inv1, inv2, inv3⟩ := hs
    refine ⟨?_, ?_, ?_⟩
    · intro aid' r' h
      obtain ⟨hid, hwf, hrep⟩ := inv1 aid' r' h
      exact ⟨hid, hwf, by simpa [historyOf] using hrep⟩
    · intro aid' h
      exact inv2 aid' h
    · intro aid'
      have := inv3 aid'
      simpa [historyOf] using this

/-- Every reachable store satisfies the ledger invariant. -/
theorem reachable_storeInv (admin : AccountId) (s : Store)
    (hs : Reachable admin s) : StoreInv s := by
  induction hs with
  | init => exact storeInv_init admin
  | step s0 op _ ih =>
    cases op with
    | register c a e t => exact storeInv_register s0 c a e t ih
    | transfer c a t0 bp p => exact storeInv_transfer s0 c a t0 bp p ih
    | update_status c a st => exact storeInv_update_status s0 c a st ih
    | authorize c i => exact storeInv_authorize s0 c i ih
    | revoke c i => exact storeInv_revoke s0 c i ih

theorem shareOf_le_sumShares (t : List (AccountId × Nat)) (a : AccountId) :
    shareOf t a ≤ sumShares t := by
  induction t with
  | nil => simp [shareOf_nil, sumShares_nil]
  | cons q rest ih =>
    obtain ⟨k, v⟩ := q
    rw [shareOf_cons, sumShares_cons]
    by_cases h : k = a
    · rw [if_pos h]
      omega
    · rw [if_neg h]
      omega

/-! ## The contract code as written in the repository's markdown files

`PITCH-DECK.md` (Slide 7) declares the on-chain state type with a single
`current_owner` and a single `ownership_basis_points` per token, and
`DEVPOST.md` ("NEAR Smart Contract Core Logic") gives the body of
`register_loan_token`: it builds a `LoanToken` owned 100% by the
predecessor account and upserts it into `loan_tokens`. These definitions
embed those snippets as they appear in the repository. -/

namespace Snippet

/-- The `LoanToken` struct of `PITCH-DECK.md` / `DEVPOST.md`: one
`current_owner` field and one `ownership_basis_points` value per token. -/
structure LoanToken where
  loan_id : String
  originator : AccountId
  principal_amount : Nat
  current_owner : AccountId
  ownership_basis_points : Nat
  deriving DecidableEq, Repr

/-- The `LoanTradingContract` state declared in `PITCH-DECK.md`
("Smart Contract Design"). -/
structure LoanTradingContract where
  loan_tokens : List (String × LoanToken)
  transfer_history : List (String × List TransferEvent)
  authorized_originators : List AccountId
  admin : AccountId
  deriving DecidableEq, Repr

/-- `register_loan_token` exactly as its body appears in `DEVPOST.md`:
build the token with `current_owner = predecessor`,
`ownership_basis_points = 10000`, insert it into `loan_tokens`, return it.
(The snippet performs no authorization or duplicate check.) -/
def register_loan_token (self : LoanTradingContract) (predecessor : AccountId)
    (loan_id : String) (principal_amount : Nat) : LoanToken × LoanTradingContract :=
  let token : LoanToken :=
    { loan_id := loan_id
      originator := predecessor
      principal_amount := principal_amount
      current_owner := predecessor
      ownership_basis_points := 10000 }
  (token, { self with loan_tokens := setA self.loan_tokens loan_id token })

/-- `a` is a holder that the token state records: the token's
`current_owner` field is `a`. -/
def holds (t : LoanToken) (a : AccountId) : Prop := t.current_owner = a

/-- The contract state right after `new(admin)`. -/
def initContract (admin : AccountId) : LoanTradingContract :=
  { loan_tokens := []
    transfer_history := []
    authorized_originators := [admin]
    admin := admin }

/-- Contract states reachable through the operations whose bodies the
repository actually contains (`register_loan_token`; the
`transfer_fractional_ownership` body is elided to comments in both
markdown files). -/
inductive ContractReach : LoanTradingContract → Prop where
  | init (admin : AccountId) : ContractReach (initContract admin)
  | step (c : LoanTradingContract) (p lid : String) (amt : Nat) :
      ContractReach c → ContractReach (register_loan_token c p lid amt).2

end Snippet

/-! ## Concrete demonstration stores used by the witnesses -/

/-- Deployment by `admin`, then registration of asset `A1`. -/
def demoStore : Store :=
  applyOp (initStore "admin") (Op.register "admin" "A1" "ref1" 1000000)

/-- The record `A1` holds inside `demoStore`. -/
def demoRecord : AssetRecord :=
  { asset_id := "A1"
    external_reference := "ref1"
    originator := "admin"
    total_value := 1000000
    ownership_table := [("admin", 10000)]
    status := .Active
    created_at := 0 }

theorem demoStore_reachable : Reachable "admin" demoStore :=
  Reachable.step _ _ Reachable.init

/-- `demoStore` after `admin` sells 2500 bp of `A1` to `inv1`. -/
def demoStore2 : Store :=
  applyOp demoStore (Op.transfer "admin" "A1" "inv1" 2500 250000)

/-- The record `A1` holds inside `demoStore2`. -/
def demoRecord2 : AssetRecord :=
  { demoRecord with ownership_table := [("admin", 7500), ("inv1", 2500)] }

theorem demoStore2_reachable : Reachable "admin" demoStore2 :=
  Reachable.step _ _ demoStore_reachable

/-- The event recorded by the `demoStore2` transfer. -/
def demoEvent : TransferEvent :=
  { asset_id := "A1"
    from_acct := "admin"
    to_acct := "inv1"
    basis_points := 2500
    price := 250000
    executed_at := 1
    sequence_number := 1 }

/-- `demoStore` after `admin` sells exactly 3000 bp of `A1` to `inv1`. -/
def demoStoreC6 : Store :=
  applyOp demoStore (Op.transfer "admin" "A1" "inv1" 3000 300000)

/-- The record `A1` holds inside `demoStoreC6`. -/
def demoRecordC6 : AssetRecord :=
  { demoRecord with ownership_table := [("admin", 7000), ("inv1", 3000)] }

/-- `demoStore` after the originator marks `A1` as `Defaulted`. -/
def demoStoreD : Store :=
  applyOp demoStore (Op.update_status "admin" "A1" .Defaulted)

/-- The record `A1` holds inside `demoStoreD`. -/
def demoRecordD : AssetRecord :=
  { demoRecord with status := .Defaulted }

/-! ## The claims -/

/-- C1: for every asset record, after every sequence of successful
register/transfer/update_status operations, the sum of all shares in its
ownership_table equals exactly 10000 basis points, and no entry in the table
is zero or negative (a holder whose share reaches zero is removed). -/
theorem C1_conservation (admin : AccountId) (s : Store) (hs : Reachable admin s)
    (aid : String) (r : AssetRecord) (hr : lookupA s.assets aid = some r) :
    sumShares r.ownership_table = 10000 ∧ ∀ p ∈ r.ownership_table, 0 < p.2 := by
  obtain ⟨inv1, _, _⟩ := reachable_storeInv admin s hs
  obtain ⟨_, ⟨h1, h2, _⟩, _⟩ := inv1 aid r hr
  exact ⟨h1, h2⟩

theorem C1_conservation_witness :
    sumShares demoRecord.ownership_table = 10000 ∧
      ∀ p ∈ demoRecord.ownership_table, 0 < p.2 :=
  C1_conservation "admin" demoStore demoStore_reachable "A1" demoRecord (by rfl)

/-- C2: for every asset, replaying that asset's TransferEvents in ascending
sequence_number order, starting from the initial state in which the
originator holds 100% (10000 basis points), deterministically reproduces the
asset's current ownership_table exactly. (The stored history is in ascending
sequence_number order, and its replay equals the stored table.) -/
theorem C2_replay (admin : AccountId) (s : Store) (hs : Reachable admin s)
    (aid : String) (r : AssetRecord) (hr : lookupA s.assets aid = some r) :
    (historyOf s aid).map TransferEvent.sequence_number =
      List.range' 1 (historyOf s aid).length ∧
    replayTable r.originator (historyOf s aid) = r.ownership_table := by
  obtain ⟨inv1, _, inv3⟩ := reachable_storeInv admin s hs
  obtain ⟨_, _, hrep⟩ := inv1 aid r hr
  exact ⟨inv3 aid, hrep⟩

theorem C2_replay_witness :
    (historyOf demoStore2 "A1").map TransferEvent.sequence_number =
      List.range' 1 (historyOf demoStore2 "A1").length ∧
    replayTable demoRecord2.originator (historyOf demoStore2 "A1") =
      demoRecord2.ownership_table :=
  C2_replay "admin" demoStore2 demoStore2_reachable "A1" demoRecord2 (by rfl)

/-- C3: for every call register(caller, asset_id, external_reference,
total_value) whose preconditions hold (caller authorized, asset_id fresh,
total_value > 0), the operation creates an AssetRecord whose ownership_table
is exactly { caller: 10000 } and whose status is Active. -/
theorem C3_register_effect (s : Store) (caller : AccountId) (aid ext : String)
    (tv : Nat) (h1 : memS s.authorized caller = true)
    (h2 : lookupA s.assets aid = none) (h3 : 0 < tv) :
    (register s caller aid ext tv).1 = .ok (freshRecord s caller aid ext tv) ∧
    (freshRecord s caller aid ext tv).ownership_table = [(caller, 10000)] ∧
    (freshRecord s caller aid ext tv).status = .Active ∧
    lookupA (register s caller aid ext tv).2.assets aid =
      some (freshRecord s caller aid ext tv) := by
  have h2' : ¬ (lookupA s.assets aid).isSome = true := by simp [h2]
  have h3' : ¬ tv = 0 := by omega
  refine ⟨by simp [register, h1, h2', h3', freshRecord], rfl, rfl, ?_⟩
  have hassets : (register s caller aid ext tv).2.assets =
      s.assets ++ [(aid, freshRecord s caller aid ext tv)] := by
    simp [register, h1, h2', h3', freshRecord]
  rw [hassets, lookupA_append_of_none _ _ _ _ h2, if_pos rfl]

theorem C3_register_effect_witness :
    (register demoStore "admin" "A2" "ref2" 500000).1 =
      .ok (freshRecord demoStore "admin" "A2" "ref2" 500000) ∧
    (freshRecord demoStore "admin" "A2" "ref2" 500000).ownership_table =
      [("admin", 10000)] ∧
    (freshRecord demoStore "admin" "A2" "ref2" 500000).status = .Active ∧
    lookupA (register demoStore "admin" "A2" "ref2" 500000).2.assets "A2" =
      some (freshRecord demoStore "admin" "A2" "ref2" 500000) :=
  C3_register_effect demoStore "admin" "A2" "ref2" 500000 (by rfl) (by rfl)
    (by omega)

/-- C4: for every caller not in the AuthorizationSet, register fails with
Unauthorized and creates no AssetRecord — the store is unchanged, so when
get_asset(asset_id) returned AssetNotFound before the call it still does
after it. -/
theorem C4_unauthorized_register (s : Store) (caller : AccountId) (aid ext : String)
    (tv : Nat) (h : memS s.authorized caller = false) :
    (register s caller aid ext tv).1 = .error .Unauthorized ∧
    (register s caller aid ext tv).2 = s ∧
    (get_asset s aid = .error .AssetNotFound →
      get_asset (register s caller aid ext tv).2 aid = .error .AssetNotFound) := by
  have h' : ¬ memS s.authorized caller = true := by simp [h]
  refine ⟨by simp [register, h'], by simp [register, h'], ?_⟩
  intro hga
  have h2 : (register s caller aid ext tv).2 = s := by simp [register, h']
  rw [h2]
  exact hga

theorem C4_unauthorized_register_witness :
    (register demoStore "eve" "A9" "ref9" 500).1 = .error .Unauthorized ∧
    (register demoStore "eve" "A9" "ref9" 500).2 = demoStore ∧
    (get_asset demoStore "A9" = .error .AssetNotFound →
      get_asset (register demoStore "eve" "A9" "ref9" 500).2 "A9" =
        .error .AssetNotFound) :=
  C4_unauthorized_register demoStore "eve" "A9" "ref9" 500 (by rfl)

/-- C5 counterexample: with asset `A1` already registered in `demoStore`, a
second register of `A1` by the unauthorized caller `eve` fails with
`Unauthorized`, not `DuplicateAsset` — the authorization precondition is
checked first (spec §4.1 order), so the claim's "always fails with
DuplicateAsset regardless of the caller" is false. -/
theorem C5_counterexample :
    lookupA demoStore.assets "A1" = some demoRecord ∧
    (register demoStore "eve" "A1" "ref2" 500).1 = .error .Unauthorized ∧
    ¬ (register demoStore "eve" "A1" "ref2" 500).1 = .error .DuplicateAsset := by
  refine ⟨by rfl, by rfl, ?_⟩
  intro h
  rw [show (register demoStore "eve" "A1" "ref2" 500).1 =
    Except.error LedgerError.Unauthorized from rfl] at h
  exact absurd (Except.error.inj h) (by decide)

/-- C5 amended: a second register of an already-present asset_id always
fails (with DuplicateAsset whenever the caller is authorized; an
unauthorized caller fails with Unauthorized instead), and in all cases the
store — hence the existing AssetRecord and its history — is unchanged. -/
theorem C5_amended_duplicate (s : Store) (caller : AccountId) (aid ext : String)
    (tv : Nat) (hdup : (lookupA s.assets aid).isSome = true) :
    (∃ e, (register s caller aid ext tv).1 = .error e) ∧
    (memS s.authorized caller = true →
      (register s caller aid ext tv).1 = .error .DuplicateAsset) ∧
    (register s caller aid ext tv).2 = s := by
  by_cases h1 : memS s.authorized caller = true
  · exact ⟨⟨.DuplicateAsset, by simp [register, h1, hdup]⟩,
      fun _ => by simp [register, h1, hdup], by simp [register, h1, hdup]⟩
  · exact ⟨⟨.Unauthorized, by simp [register, h1]⟩,
      fun hc => absurd hc h1, by simp [register, h1]⟩

theorem C5_amended_duplicate_witness :
    (∃ e, (register demoStore "admin" "A1" "ref2" 500).1 = .error e) ∧
    (memS demoStore.authorized "admin" = true →
      (register demoStore "admin" "A1" "ref2" 500).1 = .error .DuplicateAsset) ∧
    (register demoStore "admin" "A1" "ref2" 500).2 = demoStore :=
  C5_amended_duplicate demoStore "admin" "A1" "ref2" 500 (by rfl)

/-- C6 counterexample: in `demoStore` the holder `admin` owns exactly
s = 10000 bp of the Active asset `A1`, yet `transfer` of s + 1 = 10001 bp
fails with `InvalidFraction` (the 1..10000 range check fires first), not
with `InsufficientOwnership` as the claim states for every share s. -/
theorem C6_counterexample :
    lookupA demoStore.assets "A1" = some demoRecord ∧
    demoRecord.status = .Active ∧
    shareOf demoRecord.ownership_table "admin" = 10000 ∧
    (transfer demoStore "admin" "A1" "inv1" 10001 250000).1 =
      .error .InvalidFraction ∧
    ¬ (transfer demoStore "admin" "A1" "inv1" 10001 250000).1 =
      .error .InsufficientOwnership := by
  refine ⟨by rfl, by rfl, by rfl, by rfl, ?_⟩
  intro h
  rw [show (transfer demoStore "admin" "A1" "inv1" 10001 250000).1 =
    Except.error LedgerError.InvalidFraction from rfl] at h
  exact absurd (Except.error.inj h) (by decide)

/-- C6 amended: for a holder H of an Active asset with a well-formed table
and current share exactly bp > 0, transferring bp to another party X
succeeds and removes H's entry from the table; transferring bp + 1 fails
with InsufficientOwnership whenever bp < 10000, and with InvalidFraction in
the remaining boundary case bp = 10000 (where bp + 1 leaves the valid
fraction range before ownership is consulted). -/
theorem C6_boundary (s : Store) (aid : String) (r : AssetRecord)
    (H X : AccountId) (bp price : Nat)
    (hr : lookupA s.assets aid = some r) (hst : r.status = .Active)
    (hWF : tableWF r.ownership_table)
    (hsh : shareOf r.ownership_table H = bp) (hbp : 0 < bp) (hX : X ≠ H) :
    (∃ ev, (transfer s H aid X bp price).1 = .ok ev) ∧
    (∃ r2, lookupA (transfer s H aid X bp price).2.assets aid = some r2 ∧
      lookupA r2.ownership_table H = none) ∧
    (bp < 10000 →
      (transfer s H aid X (bp + 1) price).1 = .error .InsufficientOwnership) ∧
    (bp = 10000 →
      (transfer s H aid X (bp + 1) price).1 = .error .InvalidFraction) := by
  obtain ⟨hw1, hw2, hw3⟩ := hWF
  have hle : bp ≤ 10000 := by
    have := shareOf_le_sumShares r.ownership_table H
    omega
  have hno : ¬ (bp = 0 ∨ 10000 < bp) := by omega
  have hge : ¬ shareOf r.ownership_table H < bp := by omega
  have hXH : ¬ X = H := hX
  have hsum : sumShares (credit (debit r.ownership_table H bp) X bp) = 10000 := by
    rw [sumShares_credit]
    have := sumShares_debit r.ownership_table H bp (by omega)
    omega
  refine ⟨⟨freshEvent s H aid X bp price, ?_⟩, ?_, ?_, ?_⟩
  · simp [transfer, hr, hst, hno, hge, hXH, hsum, freshEvent]
  · refine ⟨{ r with ownership_table := credit (debit r.ownership_table H bp) X bp },
      ?_, ?_⟩
    · have hassets : (transfer s H aid X bp price).2.assets = setA s.assets aid
          { r with ownership_table := credit (debit r.ownership_table H bp) X bp } := by
        simp [transfer, hr, hst, hno, hge, hXH, hsum, freshEvent]
      rw [hassets, lookupA_setA_self]
    · rw [lookupA_credit_ne _ _ _ _ (fun e => hX e.symm)]
      exact lookupA_debit_self_none _ _ _ hw3 (by omega)
  · intro hlt
    have hno1 : ¬ 10000 < bp + 1 := by omega
    have hne1 : ¬ bp + 1 = 0 := by omega
    have hlt1 : shareOf r.ownership_table H < bp + 1 := by omega
    simp [transfer, hr, hst, hno1, hne1, hlt1]
  · intro hbe
    have hyes : 10000 < bp + 1 := by omega
    simp [transfer, hr, hst, hyes]

theorem C6_boundary_witness :
    ((∃ ev, (transfer demoStoreC6 "inv1" "A1" "inv2" 3000 100).1 = .ok ev) ∧
    (∃ r2, lookupA (transfer demoStoreC6 "inv1" "A1" "inv2" 3000 100).2.assets "A1" =
        some r2 ∧ lookupA r2.ownership_table "inv1" = none) ∧
    (3000 < 10000 →
      (transfer demoStoreC6 "inv1" "A1" "inv2" 3001 100).1 =
        .error .InsufficientOwnership) ∧
    (3000 = 10000 →
      (transfer demoStoreC6 "inv1" "A1" "inv2" 3001 100).1 =
        .error .InvalidFraction)) :=
  C6_boundary demoStoreC6 "A1" demoRecordC6 "inv1" "inv2" 3000 100 (by rfl) (by rfl)
    (by refine ⟨by rfl, ?_, by decide⟩; decide) (by rfl) (by omega) (by decide)

/-- C7: every successful transfer decreases the caller's share by
basis_points, increases the recipient's share by basis_points (creating the
entry if absent), and appends exactly one TransferEvent carrying the next
per-asset sequence number (starting at 1), so that after n successful
transfers get_history returns sequence numbers 1..n in ascending order. -/
theorem C7_transfer_effects (admin : AccountId) (s : Store) (hs : Reachable admin s)
    (caller : AccountId) (aid : String) (t0 : AccountId) (bp price : Nat)
    (ev : TransferEvent) (hok : (transfer s caller aid t0 bp price).1 = .ok ev) :
    ∃ r r2, lookupA s.assets aid = some r ∧
      lookupA (transfer s caller aid t0 bp price).2.assets aid = some r2 ∧
      shareOf r2.ownership_table caller = shareOf r.ownership_table caller - bp ∧
      shareOf r2.ownership_table t0 = shareOf r.ownership_table t0 + bp ∧
      historyOf (transfer s caller aid t0 bp price).2 aid =
        historyOf s aid ++ [ev] ∧
      ev.sequence_number = (historyOf s aid).length + 1 ∧
      (historyOf (transfer s caller aid t0 bp price).2 aid).map
        TransferEvent.sequence_number =
        List.range' 1 ((historyOf s aid).length + 1) ∧
      get_history (transfer s caller aid t0 bp price).2 aid =
        .ok (historyOf s aid ++ [ev]) := by
  rcases transfer_shape s caller aid t0 bp price with ⟨e, heq⟩ |
    ⟨r, hl, hst, hbp0, hbp1, hsh, ht0, hsum, heq⟩
  · rw [heq] at hok
    simp at hok
  · have hev : ev = freshEvent s caller aid t0 bp price := by
      rw [heq] at hok
      exact (Except.ok.inj hok).symm
    subst hev
    obtain ⟨inv1, _, _⟩ := reachable_storeInv admin s hs
    obtain ⟨_, ⟨_, _, hnd⟩, _⟩ := inv1 aid r hl
    have hlk : lookupA (transfer s caller aid t0 bp price).2.assets aid =
        some { r with
          ownership_table := credit (debit r.ownership_table caller bp) t0 bp } := by
      rw [heq]
      exact lookupA_setA_self _ _ _
    have hh : historyOf (transfer s caller aid t0 bp price).2 aid =
        historyOf s aid ++ [freshEvent s caller aid t0 bp price] := by
      rw [heq]
      simp [historyOf, lookupA_setA_self]
    refine ⟨r, { r with
        ownership_table := credit (debit r.ownership_table caller bp) t0 bp },
      hl, hlk, ?_, ?_, hh, rfl, ?_, ?_⟩
    · dsimp only
      rw [shareOf_credit_ne _ _ _ _ (fun e => ht0 e.symm)]
      exact shareOf_debit_self _ _ _ hnd
    · dsimp only
      rw [shareOf_credit_self, shareOf_debit_ne _ _ _ _ ht0]
    · have hstep : applyOp s (Op.transfer caller aid t0 bp price) =
          (transfer s caller aid t0 bp price).2 := rfl
      have hpost := (reachable_storeInv admin _
        (Reachable.step s (Op.transfer caller aid t0 bp price) hs)).2.2 aid
      rw [hstep, hh] at hpost
      rw [hh]
      simpa using hpost
    · simp [get_history, hlk, hh]

theorem C7_transfer_effects_witness :
    ∃ r r2, lookupA demoStore.assets "A1" = some r ∧
      lookupA (transfer demoStore "admin" "A1" "inv1" 2500 250000).2.assets "A1" =
        some r2 ∧
      shareOf r2.ownership_table "admin" = shareOf r.ownership_table "admin" - 2500 ∧
      shareOf r2.ownership_table "inv1" = shareOf r.ownership_table "inv1" + 2500 ∧
      historyOf (transfer demoStore "admin" "A1" "inv1" 2500 250000).2 "A1" =
        historyOf demoStore "A1" ++ [demoEvent] ∧
      demoEvent.sequence_number = (historyOf demoStore "A1").length + 1 ∧
      (historyOf (transfer demoStore "admin" "A1" "inv1" 2500 250000).2 "A1").map
        TransferEvent.sequence_number =
        List.range' 1 ((historyOf demoStore "A1").length + 1) ∧
      get_history (transfer demoStore "admin" "A1" "inv1" 2500 250000).2 "A1" =
        .ok (historyOf demoStore "A1" ++ [demoEvent]) :=
  C7_transfer_effects "admin" demoStore demoStore_reachable "admin" "A1" "inv1"
    2500 250000 demoEvent (by rfl)

/-- C8: whenever an asset's status is not Active, every transfer call on it
fails with AssetNotTradeable; and update_status can return the status to
Active only from Restructured. -/
theorem C8_tradeability_gating (s : Store) (aid : String) (r : AssetRecord)
    (hr : lookupA s.assets aid = some r) :
    (¬ r.status = .Active → ∀ caller t0 bp price,
      (transfer s caller aid t0 bp price).1 = .error .AssetNotTradeable) ∧
    (∀ c, (update_status s c aid .Active).1 = .ok () →
      r.status = .Restructured) := by
  constructor
  · intro hst caller t0 bp price
    simp [transfer, hr, hst]
  · intro c hok
    rcases update_status_shape s c aid .Active with ⟨e, heq⟩ |
      ⟨r', hl', hc', ht', heq⟩
    · rw [heq] at hok
      simp at hok
    · rw [hr] at hl'
      injection hl' with h2
      subst h2
      cases hstat : r.status with
      | Active =>
        rw [hstat] at ht'
        simp [allowedTransition] at ht'
      | Settled =>
        rw [hstat] at ht'
        simp [allowedTransition] at ht'
      | Defaulted =>
        rw [hstat] at ht'
        simp [allowedTransition] at ht'
      | Restructured => rfl

theorem C8_tradeability_gating_witness :
    (transfer demoStoreD "admin" "A1" "inv1" 100 5).1 =
      .error .AssetNotTradeable ∧
    ((update_status demoStoreD "admin" "A1" .Active).1 = .ok () →
      demoRecordD.status = .Restructured) :=
  ⟨(C8_tradeability_gating demoStoreD "A1" demoRecordD (by rfl)).1 (by decide)
      "admin" "inv1" 100 5,
    fun h => (C8_tradeability_gating demoStoreD "A1" demoRecordD (by rfl)).2
      "admin" h⟩

/-- C9: every mutating operation (register, transfer, update_status,
authorize, revoke) that returns an error leaves the persistent store
identical to the store before the call — no partial writes on any error
path. -/
theorem C9_atomic_errors (s : Store) (op : Op) (e : LedgerError)
    (h : opError s op = some e) : applyOp s op = s := by
  cases op with
  | register c a ext t =>
    rcases register_shape s c a ext t with ⟨e0, heq⟩ | ⟨_, _, _, heq⟩
    · simp [applyOp, heq]
    · simp [opError, heq] at h
  | transfer c a t0 bp p =>
    rcases transfer_shape s c a t0 bp p with ⟨e0, heq⟩ |
      ⟨r, _, _, _, _, _, _, _, heq⟩
    · simp [applyOp, heq]
    · simp [opError, heq] at h
  | update_status c a st =>
    rcases update_status_shape s c a st with ⟨e0, heq⟩ | ⟨r, _, _, _, heq⟩
    · simp [applyOp, heq]
    · simp [opError, heq] at h
  | authorize c i =>
    rcases authorize_shape s c i with ⟨_, heq⟩ | ⟨_, heq⟩
    · simp [applyOp, heq]
    · simp [opError, heq] at h
  | revoke c i =>
    rcases revoke_shape s c i with ⟨_, heq⟩ | ⟨_, heq⟩
    · simp [applyOp, heq]
    · simp [opError, heq] at h

theorem C9_atomic_errors_witness :
    opError demoStore (Op.register "eve" "A2" "ref2" 5) =
      some LedgerError.Unauthorized ∧
    applyOp demoStore (Op.register "eve" "A2" "ref2" 5) = demoStore :=
  ⟨by rfl, C9_atomic_errors demoStore (Op.register "eve" "A2" "ref2" 5)
    LedgerError.Unauthorized (by rfl)⟩

/-- C10: in the contract code as written in the repository's markdown
files, every stored loan token records exactly one holder at any time: the
LoanToken state type carries a single current_owner field and a single
ownership_basis_points value (set to 10000 at registration), so no
reachable token state represents two or more simultaneous fractional
holders of the same token. -/
theorem C10_single_holder (c : Snippet.LoanTradingContract)
    (hc : Snippet.ContractReach c) (lid : String) (t : Snippet.LoanToken)
    (ht : lookupA c.loan_tokens lid = some t) :
    t.ownership_basis_points = 10000 ∧ t.current_owner = t.originator ∧
    ∀ a b, Snippet.holds t a → Snippet.holds t b → a = b := by
  revert ht
  induction hc with
  | init admin =>
    intro ht
    simp [Snippet.initContract, lookupA] at ht
  | step c0 p lid0 amt _ ih =>
    intro ht
    simp only [Snippet.register_loan_token] at ht
    by_cases he : lid = lid0
    · subst he
      rw [lookupA_setA_self] at ht
      injection ht with h2
      subst h2
      refine ⟨rfl, rfl, ?_⟩
      intro a b ha hb
      exact ha.symm.trans hb
    · rw [lookupA_setA_ne _ _ _ _ he] at ht
      exact ih ht

/-- A demonstration contract: deployment then one registration. -/
def demoContract : Snippet.LoanTradingContract :=
  (Snippet.register_loan_token (Snippet.initContract "admin") "orig1" "L1" 1000).2

/-- The token stored under `L1` in `demoContract`. -/
def demoToken : Snippet.LoanToken :=
  { loan_id := "L1"
    originator := "orig1"
    principal_amount := 1000
    current_owner := "orig1"
    ownership_basis_points := 10000 }

theorem C10_single_holder_witness :
    demoToken.ownership_basis_points = 10000 ∧
    demoToken.current_owner = demoToken.originator ∧
    ∀ a b, Snippet.holds demoToken a → Snippet.holds demoToken b → a = b :=
  C10_single_holder demoContract
    (Snippet.ContractReach.step _ _ _ _ (Snippet.ContractReach.init "admin"))
    "L1" demoToken (by rfl)
